import Mathlib

/-!
Shallow embedding of the lawai repository: the React front end under `src/`
(the `App` component embedded in `README.md`, `src/utils/chatUtils.js`,
`src/components/ChatContainer/ChatContainer.jsx` with the embedded `InputBar`,
`src/components/EmptyState/EmptyState.jsx`, `src/components/Sidebar/Sidebar.jsx`)
together with, where the backend RAG engine code is absent from the repository
snapshot, models taken from the specification.

JavaScript strings are modelled by Lean `String`, JavaScript objects keyed by
chat id are modelled as ordered association lists (`List (String × Chat)`,
insertion order = key enumeration order), and the external `JSON.parse` /
`JSON.stringify` library calls are parameters of the embedded functions.
-/

namespace LawAI

/-- `startsWithChars hay pre` is true when `pre` is an initial segment of
`hay`; mirrors JavaScript `String.prototype.startsWith` on character lists. -/
def startsWithChars : List Char → List Char → Bool
  | _, [] => true
  | [], _ :: _ => false
  | h :: hs, n :: ns => h == n && startsWithChars hs ns

/-- `hasSubChars needle hay` is true when `needle` occurs contiguously inside
`hay`; mirrors JavaScript `String.prototype.includes`. -/
def hasSubChars (needle : List Char) : List Char → Bool
  | [] => startsWithChars [] needle
  | h :: hs => startsWithChars (h :: hs) needle || hasSubChars needle hs

/-- `strContains hay needle` : `needle` occurs contiguously in `hay`. -/
def strContains (hay needle : String) : Bool :=
  hasSubChars needle.data hay.data

/-- JavaScript `s.slice(n)` for ASCII strings: drop the first `n` characters. -/
def dropChars (s : String) (n : Nat) : String :=
  String.mk (s.data.drop n)

/-- Helper for `jsSplitLines`: split a character list at newline characters,
`cur` being the (reversed) current line. -/
def splitLinesAux : List Char → List Char → List (List Char)
  | [], cur => [cur.reverse]
  | c :: cs, cur =>
    if c == '\n' then cur.reverse :: splitLinesAux cs []
    else splitLinesAux cs (c :: cur)

/-- JavaScript `chunk.split('\n')`: the separator is removed, empty pieces are
kept. -/
def jsSplitLines (s : String) : List String :=
  (splitLinesAux s.data []).map String.mk

/-- JavaScript `String.prototype.trim`: remove leading and trailing
whitespace. -/
def jsTrim (s : String) : String :=
  String.mk (((s.data.dropWhile Char.isWhitespace).reverse.dropWhile
    Char.isWhitespace).reverse)

/-- One parsed server-sent event, the shape `App.handleSubmit` reads from
`JSON.parse(data)`: a `type` tag and the `content` increment. -/
structure SSEEvent where
  type : String
  content : String

/-- The inner `for (const line of lines)` loop of `App.handleSubmit`
(`README.md` embedded `App.jsx`, lines 317–354): lines not starting with
`"data: "` are ignored; payload `"[DONE]"` breaks out of the line loop (only);
a payload that fails to parse is logged and skipped; a parsed event with
`type === 'content'` appends its `content` to the accumulated answer.
`parseJson` stands for the external `JSON.parse` wrapped in try/catch. -/
def processLines (parseJson : String → Option SSEEvent) :
    List String → String → String
  | [], acc => acc
  | line :: rest, acc =>
    if startsWithChars line.data "data: ".data then
      let data := dropChars line 6
      if data == "[DONE]" then acc
      else
        match parseJson data with
        | some parsed =>
          if parsed.type == "content" then
            processLines parseJson rest (acc ++ parsed.content)
          else processLines parseJson rest acc
        | none => processLines parseJson rest acc
    else processLines parseJson rest acc

/-- The outer `while (true)` read loop of `App.handleSubmit` (lines 310–355):
each successfully read chunk is decoded, split on newlines and fed to the line
loop; the loop ends when the reader reports `done`. -/
def processStream (parseJson : String → Option SSEEvent) (chunks : List String) :
    String :=
  chunks.foldl (fun acc chunk => processLines parseJson (jsSplitLines chunk) acc) ""

/-- The fixed text the catch block of `App.handleSubmit` (lines 357–381)
writes into the assistant message when the fetch or the stream read throws. -/
def errorNotice : String :=
  "Sorry, I encountered an error. Please make sure the backend server is running."

/-- How a streaming request ends on the client: the reader reports `done`
(`ok`), or the fetch / a read throws and control reaches the catch block
(`err`). -/
inductive StreamEnd where
  | ok
  | err

/-- The text of the assistant message once `App.handleSubmit` finishes: on a
normal end it is the accumulated streamed text; when an error is caught the
catch block overwrites the message with `errorNotice`. -/
def finalAnswerText (parseJson : String → Option SSEEvent)
    (chunks : List String) : StreamEnd → String
  | StreamEnd.ok => processStream parseJson chunks
  | StreamEnd.err => errorNotice

/-- `InputBar.handleSubmit` (embedded in `ChatContainer.jsx`, lines 53–59):
the message is sent only when `inputValue.trim()` is truthy and the bar is not
disabled; `some m` is the message passed to `onSendMessage`. -/
def inputBarHandleSubmit (inputValue : String) (disabled : Bool) :
    Option String :=
  if (jsTrim inputValue != "") && !disabled then some inputValue else none

/-- `EmptyState.handleSubmit` (`EmptyState.jsx`, lines 18–24): the message is
sent only when `inputValue.trim()` is truthy. -/
def emptyStateHandleSubmit (inputValue : String) : Option String :=
  if jsTrim inputValue != "" then some inputValue else none

/-- The `type` field of a message object created by `App`: `'message'` for
user messages, `'agent'` for assistant messages; `other` stands for any other
value the filter in `App.handleSubmit` would reject. -/
inductive MsgType where
  | message
  | agent
  | other
  deriving DecidableEq

/-- A message object of a chat, as created by `App.handleSubmit`
(`userMessage` / `aiMessage`): `isUser` is false when the field is absent. -/
structure Msg where
  type : MsgType
  isUser : Bool
  message : String
  deriving DecidableEq

/-- One element of the `chat_history` array sent to the backend. -/
structure HistEntry where
  role : String
  content : String
  deriving DecidableEq

/-- The request body `App.handleSubmit` posts to `/query-stream`. -/
structure QueryRequest where
  question : String
  chat_history : List HistEntry
  deriving DecidableEq

/-- The `chatHistory` construction of `App.handleSubmit` (`README.md` embedded
`App.jsx`, lines 281–288): filter to `'message'` / `'agent'` typed messages,
then map to `{role, content}` with `role = msg.isUser || msg.type === 'message'
? 'user' : 'assistant'`. -/
def buildChatHistory (msgs : List Msg) : List HistEntry :=
  (msgs.filter (fun m => m.type == MsgType.message || m.type == MsgType.agent)).map
    (fun m =>
      { role := if m.isUser || m.type == MsgType.message then "user" else "assistant",
        content := m.message })

/-- The request `App.handleSubmit` sends: `question` is the newly submitted
message and `chat_history` is built from `currentChat.messages`, the snapshot
taken before the new user message and the assistant placeholder are
appended. -/
def handleSubmitRequest (currentMessages : List Msg) (question : String) :
    QueryRequest :=
  { question := question, chat_history := buildChatHistory currentMessages }

/-- A chat object as created by `createNewChat` in `chatUtils.js`. -/
structure Chat where
  id : String
  title : String
  messages : List Msg
  createdAt : Nat
  updatedAt : Nat
  deriving DecidableEq

/-- A JavaScript object keyed by chat id, as an ordered association list. -/
abbrev ChatMap := List (String × Chat)

/-- `sortChatsByDate` (`chatUtils.js`, lines 54–56): `Object.values(chats)`
sorted by `updatedAt` descending (JavaScript `Array.prototype.sort` is
stable, as is `mergeSort`). -/
def sortChatsByDate (chats : ChatMap) : List Chat :=
  (chats.map Prod.snd).mergeSort (fun a b => decide (b.updatedAt ≤ a.updatedAt))

/-- `enforceChatsLimit` (`chatUtils.js`, lines 102–118): if at most `maxChats`
chats are present the input object is returned unchanged, otherwise a new
object is built from the `maxChats` most recently updated chats (keyed by
`chat.id`, in sorted order). The source's default for `maxChats` is 50. -/
def enforceChatsLimit (chats : ChatMap) (maxChats : Nat) : ChatMap :=
  let chatArray := sortChatsByDate chats
  if chatArray.length ≤ maxChats then chats
  else (chatArray.take maxChats).map (fun c => (c.id, c))

/-- The two localStorage slots the app uses: `'lawai_chats'` and
`'lawai_active_chat'`; `none` models an absent key. -/
structure Storage where
  chats : Option String
  activeChat : Option String

/-- `saveChatsToStorage` (`chatUtils.js`, lines 61–73) on the success path:
both keys are written; `stringify` stands for the external `JSON.stringify`. -/
def saveChatsToStorage (stringify : ChatMap → String) (chats : ChatMap)
    (activeChatId : String) : Storage :=
  { chats := some (stringify chats), activeChat := some activeChatId }

/-- The default state `loadChatsFromStorage` returns when nothing (usable) is
in storage: one fresh chat, active. `freshChat` stands for the
`createNewChat()` result (its id comes from `Date.now()` and
`Math.random()`). -/
def fallbackLoadState (freshChat : Chat) : ChatMap × Option String :=
  ([(freshChat.id, freshChat)], some freshChat.id)

/-- `loadChatsFromStorage` (`chatUtils.js`, lines 78–97): if `'lawai_chats'`
holds a truthy string that parses, return it together with whatever (possibly
absent) active id is stored; on an absent key, an empty string, or a
`JSON.parse` failure (caught), return the default state. `parseChats` stands
for the external `JSON.parse`. -/
def loadChatsFromStorage (parseChats : String → Option ChatMap)
    (freshChat : Chat) (st : Storage) : ChatMap × Option String :=
  match st.chats with
  | some chatsJson =>
    if chatsJson != "" then
      match parseChats chatsJson with
      | some chats => (chats, st.activeChat)
      | none => fallbackLoadState freshChat
    else fallbackLoadState freshChat
  | none => fallbackLoadState freshChat

/-- `App.handleDeleteChat` (`README.md` embedded `App.jsx`, lines 199–216):
returns unchanged when exactly one chat exists; otherwise deletes the key
`chatId` and, if the active chat was deleted, makes the first remaining key
active (the `none` arm of the `match` is unreachable when at least two chats
exist). -/
def handleDeleteChat (chats : ChatMap) (activeChatId : String)
    (chatId : String) : ChatMap × String :=
  if chats.length == 1 then (chats, activeChatId)
  else
    let newChats := chats.eraseP (fun kv => kv.fst == chatId)
    if chatId == activeChatId then
      (newChats,
        match newChats.head? with
        | some kv => kv.fst
        | none => activeChatId)
    else (newChats, activeChatId)

/-- The "not found in corpus" answer of the Generator, following the
specification's wording for the empty-context contract. -/
def notAvailableAnswer : String :=
  "The information is not available in the source corpus."

/-- A retrieved document with its citation metadata. -/
structure Document where
  id : String
  text : String
  title : String

/-- A conversation turn `{role, content}` as passed to the backend. -/
structure ConversationTurn where
  role : String
  content : String

/-- The Generator's result `{answerText, sources, success}`. -/
structure GenerationResult where
  answerText : String
  sources : List Document
  success : Bool

/-- Modelled from the spec: the backend Generator
(`backend/app/services/legal_graph.py`, not present under `src/`). Spec §4.5:
the prompt enforces answering only from the supplied context, and "if the
context is empty or insufficient to answer, explicitly state that the
information is not available in the source corpus rather than fabricating an
answer"; §8.7: such a request still succeeds with empty sources. `llm` stands
for the external language-model call used on a non-empty context. -/
def generateAnswer (standaloneQuery : String) (ctx : List (Document × Nat))
    (conversationHistory : List ConversationTurn)
    (llm : String → List (Document × Nat) → List ConversationTurn → String) :
    GenerationResult :=
  if ctx.isEmpty then
    { answerText := notAvailableAnswer, sources := [], success := true }
  else
    { answerText := llm standaloneQuery ctx conversationHistory,
      sources := ctx.map Prod.fst, success := true }

/-- Modelled from the spec: the backend Reformulator
(`BaseGraphService` question reformulation, not present under `src/`). Spec
§4.3: "if `conversationHistory` is empty, `standaloneQuery =
latestUserMessage` unchanged (no-op fast path — avoids an unnecessary model
call)"; otherwise the language model rewrites the message. The boolean records
whether the model was invoked. -/
def reformulate (latestUserMessage : String)
    (conversationHistory : List ConversationTurn)
    (llmRewrite : String → List ConversationTurn → String) : String × Bool :=
  if conversationHistory.isEmpty then (latestUserMessage, false)
  else (llmRewrite latestUserMessage conversationHistory, true)

/-- A concrete wire payload: the JSON text of one content event carrying
`"Hello"`. -/
def helloPayload : String := "\x7b\"type\": \"content\", \"content\": \"Hello\"\x7d"

/-- A concrete instance of the external `JSON.parse` behavior: it parses
`helloPayload` to the corresponding content event and nothing else. -/
def parseHello : String → Option SSEEvent := fun s =>
  if s == helloPayload then some { type := "content", content := "Hello" } else none

theorem mem_of_startsWithChars (pre : List Char) :
    ∀ hay : List Char, startsWithChars hay pre = true → ∀ c ∈ pre, c ∈ hay := by
  induction pre with
  | nil => intro hay _ c hc; cases hc
  | cons n ns ih =>
    intro hay h c hc
    cases hay with
    | nil => simp [startsWithChars] at h
    | cons hh hs =>
      simp only [startsWithChars, Bool.and_eq_true, beq_iff_eq] at h
      rcases List.mem_cons.mp hc with rfl | hc
      · exact h.1 ▸ List.mem_cons_self hh hs
      · exact List.mem_cons_of_mem _ (ih hs h.2 c hc)

theorem mem_of_hasSubChars (needle : List Char) :
    ∀ hay : List Char, hasSubChars needle hay = true → ∀ c ∈ needle, c ∈ hay := by
  intro hay
  induction hay with
  | nil =>
    intro h c hc
    cases needle with
    | nil => cases hc
    | cons n ns => simp [hasSubChars, startsWithChars] at h
  | cons hh hs ih =>
    intro h c hc
    rcases Bool.or_eq_true _ _ |>.mp h with h1 | h1
    · exact mem_of_startsWithChars needle (hh :: hs) h1 c hc
    · exact List.mem_cons_of_mem _ (ih h1 c hc)

theorem strContains_eq_false_of_noDigit (hay needle : String)
    (hh : hay.data.any Char.isDigit = false)
    (hn : needle.data.any Char.isDigit = true) :
    strContains hay needle = false := by
  rcases List.any_eq_true.mp hn with ⟨c, hc, hcd⟩
  cases hsc : strContains hay needle with
  | false => rfl
  | true =>
    have hmem : c ∈ hay.data := mem_of_hasSubChars needle.data hay.data hsc c hc
    have : hay.data.any Char.isDigit = true := List.any_eq_true.mpr ⟨c, hmem, hcd⟩
    rw [hh] at this
    cases this

theorem exists_nonWhitespace_of_jsTrim_ne (s : String) (h : jsTrim s ≠ "") :
    ∃ c ∈ s.data, c.isWhitespace = false := by
  by_contra hall
  push_neg at hall
  apply h
  have hws : ∀ c ∈ s.data, Char.isWhitespace c = true := by
    intro c hc
    have := hall c hc
    cases hb : Char.isWhitespace c with
    | false => exact absurd hb this
    | true => rfl
  have h1 : s.data.dropWhile Char.isWhitespace = [] :=
    List.dropWhile_eq_nil_iff.mpr hws
  unfold jsTrim
  rw [h1]
  rfl

/-- C1: when retrieval succeeds with an empty `RetrievedContext`, the
Generator's answer explicitly states that the information is not available in
the source corpus, the request still succeeds with no sources, and the answer
(a fixed fallback, hence not fabricated) contains none of the held-out
document identifiers (identifiers containing at least one digit, as the
corpus's section-number ids do). -/
theorem generator_empty_context_states_not_available
    (standaloneQuery : String) (conversationHistory : List ConversationTurn)
    (llm : String → List (Document × Nat) → List ConversationTurn → String)
    (heldOutIds : List String)
    (hIds : ∀ d ∈ heldOutIds, d.data.any Char.isDigit = true) :
    (generateAnswer standaloneQuery [] conversationHistory llm).success = true ∧
    (generateAnswer standaloneQuery [] conversationHistory llm).sources = [] ∧
    strContains (generateAnswer standaloneQuery [] conversationHistory llm).answerText
      "not available in the source" = true ∧
    ∀ d ∈ heldOutIds,
      strContains (generateAnswer standaloneQuery [] conversationHistory llm).answerText
        d = false := by
  refine ⟨rfl, rfl, ?_, ?_⟩
  · show strContains notAvailableAnswer "not available in the source" = true
    decide
  · intro d hd
    exact strContains_eq_false_of_noDigit notAvailableAnswer d (by decide) (hIds d hd)

theorem generator_empty_context_states_not_available_witness :
    (generateAnswer "What is Bitcoin fraud punishment?" [] [] (fun _ _ _ => "")).success
      = true ∧
    (generateAnswer "What is Bitcoin fraud punishment?" [] [] (fun _ _ _ => "")).sources
      = [] ∧
    strContains
      (generateAnswer "What is Bitcoin fraud punishment?" [] [] (fun _ _ _ => "")).answerText
      "not available in the source" = true ∧
    ∀ d ∈ ["420", "302"],
      strContains
        (generateAnswer "What is Bitcoin fraud punishment?" [] [] (fun _ _ _ => "")).answerText
        d = false :=
  generator_empty_context_states_not_available "What is Bitcoin fraud punishment?" []
    (fun _ _ _ => "") ["420", "302"] (by decide)

/-- C2 counterexample: a concrete stream delivers the chunk `"Hello"` and then
the read fails; the chunk had been accumulated (`processStream` yields
`"Hello"`), but the surfaced final message is the fixed error notice, which
does not contain `"Hello"` — the accumulated answer is replaced, not
preserved. -/
theorem streaming_error_replaces_accumulated_counterexample :
    processStream parseHello ["data: " ++ helloPayload ++ "\n"] = "Hello" ∧
    finalAnswerText parseHello ["data: " ++ helloPayload ++ "\n"] StreamEnd.err
      = errorNotice ∧
    strContains
      (finalAnswerText parseHello ["data: " ++ helloPayload ++ "\n"] StreamEnd.err)
      "Hello" = false := by
  refine ⟨by decide, rfl, by decide⟩

/-- C2 amended: if a streaming generation fails after chunks have been
delivered, the catch block of `App.handleSubmit` replaces the assistant
message with the fixed error notice; the chunks accumulated before the
failure are discarded from the displayed answer (any text absent from the
error notice is absent from the surfaced message). -/
theorem streaming_error_final_message_is_error_notice
    (parseJson : String → Option SSEEvent) (chunks : List String) (s : String)
    (hs : strContains errorNotice s = false) :
    finalAnswerText parseJson chunks StreamEnd.err = errorNotice ∧
    strContains (finalAnswerText parseJson chunks StreamEnd.err) s = false :=
  ⟨rfl, hs⟩

theorem streaming_error_final_message_is_error_notice_witness :
    finalAnswerText parseHello ["data: " ++ helloPayload ++ "\n"] StreamEnd.err
      = errorNotice ∧
    strContains
      (finalAnswerText parseHello ["data: " ++ helloPayload ++ "\n"] StreamEnd.err)
      "Hello" = false :=
  streaming_error_final_message_is_error_notice parseHello
    ["data: " ++ helloPayload ++ "\n"] "Hello" (by decide)

/-- C3: evaluation of the stream-read loop at the failing input. The `break`
on the `[DONE]` sentinel only exits the inner line loop, so a content event
read in a later chunk is still appended: the accumulated answer ends as
`"Hello"` although the sentinel preceded the content event. (The repository's
own reference client in `BACKEND_INTEGRATION.md` uses `return` here, ending
the whole stream.) -/
theorem content_after_done_sentinel_is_appended :
    processStream parseHello ["data: [DONE]\n", "data: " ++ helloPayload ++ "\n"]
      = "Hello" := by
  decide

/-- C4: a `data:` line whose payload is not valid JSON (and is not the
`[DONE]` sentinel) is skipped by the line loop — the accumulated text is
unchanged and the remaining lines are processed exactly as if the malformed
line were absent; it never aborts the stream. -/
theorem malformed_data_line_is_skipped
    (parseJson : String → Option SSEEvent) (line : String) (rest : List String)
    (acc : String)
    (hdata : startsWithChars line.data "data: ".data = true)
    (hnotdone : (dropChars line 6 == "[DONE]") = false)
    (hmal : parseJson (dropChars line 6) = none) :
    processLines parseJson (line :: rest) acc = processLines parseJson rest acc := by
  conv_lhs => rw [processLines.eq_def]
  simp [hdata, hnotdone, hmal]

theorem malformed_data_line_is_skipped_witness :
    processLines (fun _ => none) ["data: oops", "data: [DONE]"] ""
      = processLines (fun _ => none) ["data: [DONE]"] "" :=
  malformed_data_line_is_skipped (fun _ => none) "data: oops" ["data: [DONE]"] ""
    (by decide) (by decide) rfl

/-- C5: whenever the input bar or the empty-state form actually submits a
message, that message contains at least one non-whitespace character; input
whose trimmed content is empty is never submitted. -/
theorem submitted_question_has_nonWhitespace
    (inputValue : String) (disabled : Bool) (m : String)
    (h : inputBarHandleSubmit inputValue disabled = some m ∨
         emptyStateHandleSubmit inputValue = some m) :
    ∃ c ∈ m.data, c.isWhitespace = false := by
  rcases h with h | h
  · unfold inputBarHandleSubmit at h
    split at h
    · next hcond =>
      obtain rfl : inputValue = m := Option.some.inj h
      have h1 : (jsTrim inputValue != "") = true := (Bool.and_eq_true _ _ |>.mp hcond).1
      exact exists_nonWhitespace_of_jsTrim_ne inputValue (bne_iff_ne.mp h1)
    · exact absurd h (by simp)
  · unfold emptyStateHandleSubmit at h
    split at h
    · next hcond =>
      obtain rfl : inputValue = m := Option.some.inj h
      exact exists_nonWhitespace_of_jsTrim_ne inputValue (bne_iff_ne.mp hcond)
    · exact absurd h (by simp)

theorem submitted_question_has_nonWhitespace_witness :
    ∃ c ∈ "What is Section 420?".data, c.isWhitespace = false :=
  submitted_question_has_nonWhitespace "What is Section 420?" false
    "What is Section 420?" (Or.inl (by decide))

/-- C6: the streaming request built by `App.handleSubmit` carries the new
question; its `chat_history` is exactly the kept messages in order, user
messages (`type = 'message'`) mapped to role `"user"` and agent messages to
`"assistant"` (agent messages carry no `isUser` flag, hence the hypothesis);
and the newly submitted question, which is appended only after the history
snapshot is taken, is not itself an element of `chat_history` (hypothesis: no
prior message has the question as its text). -/
theorem chat_history_roles_order_and_excludes_question
    (msgs : List Msg) (question : String)
    (hAgent : ∀ m ∈ msgs, m.type = MsgType.agent → m.isUser = false)
    (hNew : ∀ m ∈ msgs, m.message ≠ question) :
    (handleSubmitRequest msgs question).question = question ∧
    (handleSubmitRequest msgs question).chat_history =
      (msgs.filter (fun m => m.type == MsgType.message || m.type == MsgType.agent)).map
        (fun m =>
          { role := if m.type == MsgType.message then "user" else "assistant",
            content := m.message }) ∧
    ∀ e ∈ (handleSubmitRequest msgs question).chat_history, e.content ≠ question := by
  refine ⟨rfl, ?_, ?_⟩
  · unfold handleSubmitRequest buildChatHistory
    apply List.map_congr_left
    intro m hm
    have hmem : m ∈ msgs := (List.mem_filter.mp hm).1
    have hkeep : (m.type == MsgType.message || m.type == MsgType.agent) = true :=
      (List.mem_filter.mp hm).2
    cases htype : m.type with
    | message => simp [htype]
    | agent =>
      have hu : m.isUser = false := hAgent m hmem htype
      simp [htype, hu]
    | other => rw [htype] at hkeep; simp at hkeep
  · intro e he
    unfold handleSubmitRequest buildChatHistory at he
    rcases List.mem_map.mp he with ⟨m, hmf, rfl⟩
    have hmem : m ∈ msgs := (List.mem_filter.mp hmf).1
    exact hNew m hmem

/-- The two prior messages of the follow-up scenario of spec §8.8. -/
def demoMsgs : List Msg :=
  [{ type := MsgType.message, isUser := true, message := "What is Section 302?" },
   { type := MsgType.agent, isUser := false,
     message := "Section 302 of the IPC deals with murder." }]

theorem chat_history_roles_order_and_excludes_question_witness :
    (handleSubmitRequest demoMsgs "What is the punishment?").question
      = "What is the punishment?" ∧
    (handleSubmitRequest demoMsgs "What is the punishment?").chat_history =
      (demoMsgs.filter
        (fun m => m.type == MsgType.message || m.type == MsgType.agent)).map
        (fun m =>
          { role := if m.type == MsgType.message then "user" else "assistant",
            content := m.message }) ∧
    ∀ e ∈ (handleSubmitRequest demoMsgs "What is the punishment?").chat_history,
      e.content ≠ "What is the punishment?" :=
  chat_history_roles_order_and_excludes_question demoMsgs "What is the punishment?"
    (by decide) (by decide)

/-- C7: with an empty conversation history the Reformulator returns the latest
user message unchanged and does not invoke the language model (the flag is
`false`, and the result does not depend on `llmRewrite`), for all inputs. -/
theorem reformulator_noop_on_empty_history
    (latestUserMessage : String)
    (llmRewrite : String → List ConversationTurn → String) :
    reformulate latestUserMessage [] llmRewrite = (latestUserMessage, false) := rfl

theorem sortChatsByDate_perm (chats : ChatMap) :
    List.Perm (sortChatsByDate chats) (chats.map Prod.snd) :=
  List.mergeSort_perm (chats.map Prod.snd) _

theorem sortChatsByDate_length (chats : ChatMap) :
    (sortChatsByDate chats).length = chats.length := by
  unfold sortChatsByDate
  rw [List.length_mergeSort, List.length_map]

theorem sortChatsByDate_pairwise (chats : ChatMap) :
    (sortChatsByDate chats).Pairwise
      (fun a b => decide (b.updatedAt ≤ a.updatedAt) = true) := by
  unfold sortChatsByDate
  exact List.sorted_mergeSort
    (by intro a b c hab hbc; simp at hab hbc ⊢; omega)
    (by intro a b; simp [Bool.or_eq_true]; omega)
    (chats.map Prod.snd)

/-- C8: `enforceChatsLimit` returns the input object unchanged when it holds
at most `maxChats` chats; otherwise the result holds exactly `maxChats` chats,
the result together with the dropped chats is a permutation of the input, and
every dropped chat's `updatedAt` is at most every kept chat's `updatedAt` —
the most recently updated chats are kept, all older ones discarded. -/
theorem enforceChatsLimit_keeps_most_recent (chats : ChatMap) (maxChats : Nat) :
    (chats.length ≤ maxChats → enforceChatsLimit chats maxChats = chats) ∧
    (maxChats < chats.length →
      (enforceChatsLimit chats maxChats).length = maxChats ∧
      List.Perm (chats.map Prod.snd)
        ((enforceChatsLimit chats maxChats).map Prod.snd ++
          (sortChatsByDate chats).drop maxChats) ∧
      ∀ kept ∈ (enforceChatsLimit chats maxChats).map Prod.snd,
        ∀ dropped ∈ (sortChatsByDate chats).drop maxChats,
          dropped.updatedAt ≤ kept.updatedAt) := by
  constructor
  · intro h
    unfold enforceChatsLimit
    rw [if_pos]
    rw [sortChatsByDate_length]
    exact h
  · intro h
    have hlen : ¬ (sortChatsByDate chats).length ≤ maxChats := by
      rw [sortChatsByDate_length]; omega
    have hres : enforceChatsLimit chats maxChats =
        ((sortChatsByDate chats).take maxChats).map (fun c => (c.id, c)) := by
      unfold enforceChatsLimit
      rw [if_neg hlen]
    have hsnd : (enforceChatsLimit chats maxChats).map Prod.snd =
        (sortChatsByDate chats).take maxChats := by
      rw [hres, List.map_map]
      exact List.map_id _
    refine ⟨?_, ?_, ?_⟩
    · rw [hres, List.length_map, List.length_take, sortChatsByDate_length]
      omega
    · rw [hsnd, List.take_append_drop]
      exact (sortChatsByDate_perm chats).symm
    · rw [hsnd]
      intro kept hkept dropped hdropped
      have hpw := sortChatsByDate_pairwise chats
      rw [← List.take_append_drop maxChats (sortChatsByDate chats)] at hpw
      have := (List.pairwise_append.mp hpw).2.2 kept hkept dropped hdropped
      exact of_decide_eq_true this

/-- A minimal chat record used in concrete witnesses. -/
def demoChat (i : String) (t : Nat) : Chat :=
  { id := i, title := i, messages := [], createdAt := t, updatedAt := t }

/-- Three chats keyed by id, with distinct update times. -/
def demoChats : ChatMap :=
  [("a", demoChat "a" 10), ("b", demoChat "b" 30), ("c", demoChat "c" 20)]

theorem enforceChatsLimit_keeps_most_recent_witness :
    enforceChatsLimit demoChats 3 = demoChats ∧
    (enforceChatsLimit demoChats 2).length = 2 :=
  ⟨(enforceChatsLimit_keeps_most_recent demoChats 3).1 (by decide),
   ((enforceChatsLimit_keeps_most_recent demoChats 2).2 (by decide)).1⟩

/-- C9: saving a chats object and active id and loading them back returns the
same chats object and the same active id, provided the external JSON codec
round-trips the (JSON-serializable) object and the writes succeeded (the save
path modelled is the non-throwing one; `JSON.stringify` of an object is never
the empty string). -/
theorem save_then_load_round_trip
    (stringify : ChatMap → String) (parseChats : String → Option ChatMap)
    (chats : ChatMap) (activeChatId : String) (freshChat : Chat)
    (hrt : parseChats (stringify chats) = some chats)
    (hne : stringify chats ≠ "") :
    loadChatsFromStorage parseChats freshChat
      (saveChatsToStorage stringify chats activeChatId) = (chats, some activeChatId) := by
  unfold loadChatsFromStorage saveChatsToStorage
  simp only []
  rw [if_pos (bne_iff_ne.mpr hne), hrt]

theorem save_then_load_round_trip_witness :
    loadChatsFromStorage (fun _ => some demoChats) (demoChat "fresh" 0)
      (saveChatsToStorage (fun _ => "json") demoChats "b") = (demoChats, some "b") :=
  save_then_load_round_trip (fun _ => "json") (fun _ => some demoChats) demoChats "b"
    (demoChat "fresh" 0) rfl (by decide)

theorem key_not_mem_eraseP (l : ChatMap) (cid : String)
    (hnd : (l.map Prod.fst).Nodup) :
    cid ∉ (l.eraseP (fun kv => kv.fst == cid)).map Prod.fst := by
  induction l with
  | nil => simp
  | cons kv t ih =>
    rw [List.map_cons, List.nodup_cons] at hnd
    rw [List.eraseP_cons]
    cases hkv : (kv.fst == cid) with
    | true =>
      simp only [cond_true]
      have : kv.fst = cid := beq_iff_eq.mp hkv
      rw [← this]
      intro hmem
      exact hnd.1 hmem
    | false =>
      simp only [cond_false, List.map_cons, List.mem_cons]
      intro hmem
      rcases hmem with hmem | hmem
      · exact absurd hmem.symm (bne_iff_ne.mp (by rw [bne, hkv]; rfl))
      · exact ih hnd.2 hmem

theorem length_eraseP_ge (l : ChatMap) (p : String × Chat → Bool) :
    l.length ≤ (l.eraseP p).length + 1 := by
  by_cases h : ∃ kv ∈ l, p kv
  · rcases h with ⟨kv, hkv, hp⟩
    rw [List.length_eraseP_of_mem hkv hp]
    have : 0 < l.length := List.length_pos.mpr (List.ne_nil_of_mem hkv)
    omega
  · rw [List.eraseP_of_forall_not]
    · omega
    · intro kv hkv hp
      exact h ⟨kv, hkv, hp⟩

/-- C10: the chat collection is never empty and the active id refers to an
existing chat: (1) loading from empty storage yields one fresh chat and makes
it active; (2) deleting when exactly one chat exists is a no-op; (3) after a
delete performed with at least two chats present (unique ids, active id
present), the result is non-empty, the deleted id is gone, and the (possibly
reassigned) active id refers to a remaining chat. -/
theorem chat_collection_never_empty_active_valid :
    (∀ (parseChats : String → Option ChatMap) (freshChat : Chat),
      (loadChatsFromStorage parseChats freshChat
        { chats := none, activeChat := none }).1 ≠ [] ∧
      (loadChatsFromStorage parseChats freshChat
        { chats := none, activeChat := none }).2 = some freshChat.id ∧
      freshChat.id ∈ (loadChatsFromStorage parseChats freshChat
        { chats := none, activeChat := none }).1.map Prod.fst) ∧
    (∀ (chats : ChatMap) (act cid : String), chats.length = 1 →
      handleDeleteChat chats act cid = (chats, act)) ∧
    (∀ (chats : ChatMap) (act cid : String), 1 < chats.length →
      (chats.map Prod.fst).Nodup → act ∈ chats.map Prod.fst →
      (handleDeleteChat chats act cid).1 ≠ [] ∧
      cid ∉ (handleDeleteChat chats act cid).1.map Prod.fst ∧
      (handleDeleteChat chats act cid).2 ∈
        (handleDeleteChat chats act cid).1.map Prod.fst) := by
  refine ⟨?_, ?_, ?_⟩
  · intro parseChats freshChat
    exact ⟨by simp [loadChatsFromStorage, fallbackLoadState], rfl, by
      simp [loadChatsFromStorage, fallbackLoadState]⟩
  · intro chats act cid h
    unfold handleDeleteChat
    rw [if_pos]
    exact beq_iff_eq.mpr h
  · intro chats act cid hlen hnd hact
    have hchats : (chats.length == 1) = false := by
      rw [beq_eq_false_iff_ne]
      omega
    have hne : chats.eraseP (fun kv => kv.fst == cid) ≠ [] := by
      have := length_eraseP_ge chats (fun kv => kv.fst == cid)
      intro hnil
      rw [hnil] at this
      simp at this
      omega
    have hkey : cid ∉ (chats.eraseP (fun kv => kv.fst == cid)).map Prod.fst :=
      key_not_mem_eraseP chats cid hnd
    unfold handleDeleteChat
    rw [hchats]
    simp only [Bool.false_eq_true, if_false]
    cases hcase : (cid == act) with
    | true =>
      simp only [if_pos rfl]
      refine ⟨hne, hkey, ?_⟩
      cases herase : chats.eraseP (fun kv => kv.fst == cid) with
      | nil => exact absurd herase hne
      | cons kv t =>
        simp [herase]
    | false =>
      simp only [Bool.false_eq_true, if_false]
      refine ⟨hne, hkey, ?_⟩
      rcases List.mem_map.mp hact with ⟨kv, hkv, hfst⟩
      have hpkv : ¬ (kv.fst == cid) = true := by
        rw [hfst, beq_iff_eq]
        intro heq
        rw [heq] at hcase
        simp at hcase
      refine List.mem_map.mpr ⟨kv, ?_, hfst⟩
      exact (@List.mem_eraseP_of_neg _ (fun x => x.fst == cid) kv chats hpkv).mpr hkv

theorem chat_collection_never_empty_active_valid_witness :
    (loadChatsFromStorage (fun _ => none) (demoChat "fresh" 0)
      { chats := none, activeChat := none }).1 ≠ [] ∧
    handleDeleteChat [("a", demoChat "a" 10)] "a" "a" = ([("a", demoChat "a" 10)], "a") ∧
    "b" ∉ (handleDeleteChat demoChats "b" "b").1.map Prod.fst :=
  ⟨(chat_collection_never_empty_active_valid.1 (fun _ => none) (demoChat "fresh" 0)).1,
   chat_collection_never_empty_active_valid.2.1 [("a", demoChat "a" 10)] "a" "a" rfl,
   (chat_collection_never_empty_active_valid.2.2 demoChats "b" "b" (by decide)
     (by decide) (by decide)).2.1⟩

end LawAI
